import Mathlib

/-!
Verification of the query construction and pagination logic of mtg-sdk-go
(src/query.go) against its specification.

The embedding follows the Go source closely:
- Go strings are lists of characters (`Str`); Go byte-wise string order
  coincides with code-point order because UTF-8 is order preserving.
- The Go map type `query = map[string]string` is an association list with
  unique keys in every reachable state; Go reference semantics of maps is
  modelled by a store (list of maps) addressed by indices.
- `fetchCards` performs HTTP I/O (http.Get, checkError, decodeCards on the
  body, query.go lines 133-153); its observable behaviour is a parameter of
  type `Fetch` over which the pagination theorems quantify.
- The `for` loop of `All` (query.go lines 188-209) may not terminate when the
  server always supplies a next link, so the loop takes fuel: a `none` result
  models divergence of the Go loop, and the `Nat` in the result counts the
  `fetchCards` invocations performed.
-/

namespace Mtg

/-- Characters of a Go string value. -/
abbrev Str := List Char

/-- Character list of a Lean string literal. -/
def str (s : String) : Str := s.toList

/-- A Go `error` value, identified by its message. -/
structure GoError where
  msg : Str
deriving DecidableEq

/-- One catalog record (`*Card`).  The Card struct itself is declared outside
query.go and is treated by the spec as an opaque decodable payload, so it is
embedded as an opaque wrapper. -/
structure Card where
  id : Nat
deriving DecidableEq

/-- The portion of `http.Header` (a map from canonical key to list of values)
that query.go reads: the "Link" key (query.go line 196) and the "Total-Count"
key (line 236).  `none` models a key that is absent from the map. -/
structure header where
  link : Option (List Str)
  totalCount : Option (List Str)
deriving DecidableEq

instance {ε α : Type} [DecidableEq ε] [DecidableEq α] : DecidableEq (Except ε α) := fun a b =>
  match a, b with
  | .ok x, .ok y =>
    if h : x = y then .isTrue (by rw [h]) else .isFalse (fun he => by cases he; exact h rfl)
  | .ok _, .error _ => .isFalse (fun he => by cases he)
  | .error _, .ok _ => .isFalse (fun he => by cases he)
  | .error x, .error y =>
    if h : x = y then .isTrue (by rw [h]) else .isFalse (fun he => by cases he; exact h rfl)

/-! ## The Link header regular expression

query.go line 17: linkRE = regexp.MustCompile of the pattern
  <(.*)>; rel="(.*)"
`FindStringSubmatch` uses leftmost-first (Perl style) semantics: the match
starts at the earliest possible position, and each greedy `.*` takes the
longest extent that still lets the rest of the pattern match.  Concretely, on
input s a match exists iff s has a character < at some position p followed by
an occurrence of the 8 characters >; rel=" at some position q > p followed by
a quote character at some position r at or beyond q + 8.  The match chooses
the smallest such p, then the largest such q, then the largest such r; group 1
is s[p+1, q) and group 2 is s[q+8, r).  (The dot of the Go pattern excludes
newline characters, which cannot occur in an HTTP header value.) -/

/-- The 8-character delimiter between the two capture groups of linkRE. -/
def closePat : Str := str ">; rel=\""

/-- Whether the pattern `pat` occurs in `s` starting at position `i`. -/
def patAt (s pat : Str) (i : Nat) : Bool := decide ((s.drop i).take pat.length = pat)

/-- Positions at or beyond `k` where `s` has a double-quote character. -/
def quotesFrom (s : Str) (k : Nat) : List Nat :=
  (List.range s.length).filter (fun r => patAt s ['"'] r && decide (k ≤ r))

/-- Whether `q` can serve as the position of the group delimiter for a match
whose opening angle bracket is at `p`. -/
def goodClose (s : Str) (p q : Nat) : Bool :=
  decide (p < q) && patAt s closePat q && !(quotesFrom s (q + 8)).isEmpty

/-- Whether a match of linkRE can start at position `p` of `s`. -/
def matchStart (s : Str) (p : Nat) : Bool :=
  patAt s ['<'] p && !((List.range s.length).filter (goodClose s p)).isEmpty

/-- Model of `linkRE.FindStringSubmatch`: `none` when the regular expression
does not match, otherwise the two capture groups (URL and relation name). -/
def findStringSubmatch (s : Str) : Option (Str × Str) :=
  match ((List.range s.length).filter (matchStart s)).head? with
  | none => none
  | some p =>
    match ((List.range s.length).filter (goodClose s p)).getLast? with
    | none => none
    | some q =>
      match (quotesFrom s (q + 8)).getLast? with
      | none => none
      | some r => some ((s.drop (p + 1)).take (q - (p + 1)), (s.drop (q + 8)).take (r - (q + 8)))

/-- Model of Go `strings.Split(s, ",")`: the substrings between commas; the
empty string yields one empty part, exactly as in Go. -/
def splitComma : Str → List Str
  | [] => [[]]
  | c :: rest =>
    if c = ',' then [] :: splitComma rest
    else
      match splitComma rest with
      | [] => [[c]]
      | part :: parts => (c :: part) :: parts

/-- The inner loop of `All` over the parts of the first Link header value
(query.go lines 198-205): each part that matches linkRE with relation "next"
overwrites the next URL accumulator. -/
def linkFold : List Str → Str → Str
  | [], acc => acc
  | part :: rest, acc =>
    linkFold rest
      (match findStringSubmatch part with
       | some (u, rel) => if rel = str "next" then u else acc
       | none => acc)

/-- The contribution of one comma-separated part to the next URL: the first
capture group when the part matches linkRE with second group "next". -/
def nextOf (part : Str) : Option Str :=
  match findStringSubmatch part with
  | some (u, rel) => if rel = str "next" then some u else none
  | none => none

/-- Lines 195-206 of query.go: the next URL is reset to the empty string and
then recomputed from the comma-separated parts of the first value of the Link
header; when the header is absent the next URL stays empty.  (Go indexes
linkH[0]; an http.Header produced by the transport always carries at least one
value per present key, so the `headD` default is never exercised.) -/
def parseNextURL (hdr : header) : Str :=
  match hdr.link with
  | some linkH => linkFold (splitComma (linkH.headD [])) []
  | none => []

/-! ## Integer and string conversion (strconv) -/

/-- One decimal digit character. -/
def digitChar (d : Nat) : Char := Char.ofNat (48 + d)

/-- Decimal digits of a natural number, most significant first; the first
argument is structural fuel that is always sufficient. -/
def natDigitsAux : Nat → Nat → Str → Str
  | 0, _, acc => acc
  | fuel + 1, n, acc =>
    if n < 10 then digitChar n :: acc
    else natDigitsAux fuel (n / 10) (digitChar (n % 10) :: acc)

/-- Decimal representation of a natural number. -/
def natToStr (n : Nat) : Str := natDigitsAux (n + 1) n []

/-- Model of Go `strconv.Itoa`: decimal representation with a minus sign for
negative values.  Go int is 64 bits wide; the embedding uses unbounded
integers, which agrees with Go on every in-range value. -/
def itoa : Int → Str
  | .ofNat n => natToStr n
  | .negSucc n => '-' :: natToStr (n + 1)

/-- Whether a character is an ASCII decimal digit. -/
def isDigit (c : Char) : Bool := decide ('0' ≤ c ∧ c ≤ '9')

/-- Numeric value of a digit string, most significant first. -/
def digitsVal (ds : Str) : Nat := ds.foldl (fun a c => a * 10 + (c.toNat - 48)) 0

/-- The error returned by strconv for a malformed integer literal. -/
def atoiErrSyntax : GoError := ⟨str "strconv.Atoi: invalid syntax"⟩

/-- The error returned by strconv for an integer literal outside int range. -/
def atoiErrRange : GoError := ⟨str "strconv.Atoi: value out of range"⟩

/-- Model of Go `strconv.Atoi`: an optional sign followed by one or more
decimal digits, rejected when the value does not fit a 64-bit int. -/
def atoi (s : Str) : Except GoError Int :=
  let signed : Bool × Str :=
    match s with
    | '-' :: rest => (true, rest)
    | '+' :: rest => (false, rest)
    | _ => (false, s)
  let ds := signed.2
  if ds = [] then .error atoiErrSyntax
  else if ds.all isDigit then
    let v : Int := if signed.1 then -(digitsVal ds : Int) else (digitsVal ds : Int)
    if -(2 ^ 63) ≤ v ∧ v ≤ 2 ^ 63 - 1 then .ok v else .error atoiErrRange
  else .error atoiErrSyntax

/-! ## URL encoding (net/url)

`url.Values` is map[string][]string; query.go only ever calls `Set`, which
stores a single value per key, so the values map is embedded as the same kind
of single-valued association list as the query map.  `Encode` iterates the
keys in sorted (byte-wise, hence code-point-wise) order and percent-escapes
keys and values as query components. -/

/-- Association list holding the contents of a Go map[string]string (and of a
url.Values whose entries were all written through Set).  Reachable maps have
unique keys. -/
abbrev query := List (Str × Str)

/-- Model of a Go map read `m[k]`: the value stored for key `k`. -/
def lookupKey : query → Str → Option Str
  | [], _ => none
  | (k, v) :: rest, a => if k = a then some v else lookupKey rest a

/-- Model of a Go map write `m[k] = v` (and of url.Values.Set): replaces the
entry for `k` when one exists, otherwise adds one. -/
def mapSet : query → Str → Str → query
  | [], k, v => [(k, v)]
  | (k2, v2) :: rest, k, v =>
    if k2 = k then (k, v) :: rest else (k2, v2) :: mapSet rest k v

/-- Number of entries of the map with key `a`. -/
def countKey : query → Str → Nat
  | [], _ => 0
  | (k, _) :: rest, a => (if k = a then 1 else 0) + countKey rest a

/-- Whether the keys of an association list are pairwise distinct.  Every map
reachable through the Go map operations satisfies this. -/
def nodupKeys : query → Bool
  | [] => true
  | (k, _) :: rest => (lookupKey rest k).isNone && nodupKeys rest

/-- Lines 183-186 / 221-224 / 247-250 of query.go: build a url.Values from the
persisted query by calling Set on every pair.  Go map iteration order is
unspecified, but Set on the distinct keys of a map is order independent; the
embedding iterates in list order. -/
def valsFrom (q : query) : query := q.foldl (fun acc kv => mapSet acc kv.1 kv.2) []

/-- UTF-8 bytes of a character (as natural numbers below 256). -/
def utf8Bytes (c : Char) : List Nat :=
  let n := c.toNat
  if n < 0x80 then [n]
  else if n < 0x800 then [0xC0 + n / 0x40, 0x80 + n % 0x40]
  else if n < 0x10000 then [0xE0 + n / 0x1000, 0x80 + n / 0x40 % 0x40, 0x80 + n % 0x40]
  else [0xF0 + n / 0x40000, 0x80 + n / 0x1000 % 0x40, 0x80 + n / 0x40 % 0x40, 0x80 + n % 0x40]

/-- Uppercase hexadecimal digit. -/
def hexDigit (d : Nat) : Char := if d < 10 then Char.ofNat (48 + d) else Char.ofNat (55 + d)

/-- net/url escaping of one byte of a query component: ASCII alphanumerics
and - _ . ~ are kept, space becomes +, everything else becomes %XX. -/
def escapeByte (b : Nat) : Str :=
  if (48 ≤ b ∧ b ≤ 57) ∨ (65 ≤ b ∧ b ≤ 90) ∨ (97 ≤ b ∧ b ≤ 122) ∨
      b = 45 ∨ b = 95 ∨ b = 46 ∨ b = 126 then [Char.ofNat b]
  else if b = 32 then ['+']
  else ['%', hexDigit (b / 16), hexDigit (b % 16)]

/-- Model of url.QueryEscape applied to a string. -/
def escape (s : Str) : Str := ((s.map utf8Bytes).flatten.map escapeByte).flatten

/-- Byte-wise (equivalently code-point-wise) strict order on Go strings, the
order used by sort.Strings inside url.Values.Encode. -/
def strLt : Str → Str → Bool
  | [], [] => false
  | [], _ :: _ => true
  | _ :: _, [] => false
  | a :: as, b :: bs =>
    if a.toNat < b.toNat then true
    else if b.toNat < a.toNat then false
    else strLt as bs

/-- Insertion step of sorting the url.Values entries by key. -/
def insertByKey (kv : Str × Str) : query → query
  | [] => [kv]
  | kv2 :: rest => if strLt kv2.1 kv.1 then kv2 :: insertByKey kv rest else kv :: kv2 :: rest

/-- The url.Values entries in ascending key order (keys are distinct, so
stability is irrelevant). -/
def sortByKey : query → query
  | [] => []
  | kv :: rest => insertByKey kv (sortByKey rest)

/-- Model of url.Values.Encode: key=value pairs, escaped, joined with
ampersands, in sorted key order. -/
def encode (vals : query) : Str :=
  List.intercalate (str "&") ((sortByKey vals).map (fun kv => escape kv.1 ++ '=' :: escape kv.2))

/-! ## The response decoder -/

/-- Modelled from the spec: the decode target declared next to the Card type
outside query.go, a structure with an optional single-record slot (Go `*Card`,
nil or populated) and a list-of-records slot (Go `[]*Card`; the nil slice and
the empty slice are both the empty list). -/
structure cardResponse where
  card : Option Card
  cards : List Card
deriving DecidableEq

/-- Lines 156-178 of query.go: `decodeCards`.  The argument is the result of
reading and unmarshalling the body; a read or unmarshal failure (the `.error`
case) is propagated verbatim, and a successfully decoded body is normalized:
a populated single-record slot wins, otherwise the list slot is returned
unchanged. -/
def decodeCards (body : Except GoError cardResponse) : Except GoError (List Card) :=
  match body with
  | .error e => .error e
  | .ok resp =>
    match resp.card with
    | some c => .ok [c]
    | none => .ok resp.cards

/-! ## The pagination engine -/

/-- Observable behaviour of `fetchCards` (query.go lines 133-153): for a URL,
either a Go error (transport failure, API error or decode error) or the
decoded records together with the response headers. -/
abbrev Fetch := Str → Except GoError (List Card × header)

/-- query.go line 14: the fixed base endpoint. -/
def queryURL : Str := str "https://api.magicthegathering.io/v1/"

/-- Line 187 of query.go: the initial URL of a drain, built from the
unmodified persisted query. -/
def allURL (q : query) : Str := queryURL ++ str "cards?" ++ encode (valsFrom q)

/-- The for loop of `All` (query.go lines 188-209).  `fuel` bounds the number
of remaining iterations Lean is willing to unfold: a `none` result means the
Go loop performs more iterations than `fuel`, i.e. models divergence.  The
`Nat` of the result counts the `fetchCards` calls performed.  On a fetch error
the loop returns nil records and the error (line 191). -/
def allLoop (fetch : Fetch) (fuel : Nat) (nextURL : Str) (allCards : List Card)
    (fetches : Nat) : Option ((List Card × Option GoError) × Nat) :=
  if nextURL = [] then some ((allCards, none), fetches)
  else
    match fuel with
    | 0 => none
    | fuel + 1 =>
      match fetch nextURL with
      | .error e => some (([], some e), fetches + 1)
      | .ok (cards, hdr) =>
        allLoop fetch fuel (parseNextURL hdr) (allCards ++ cards) (fetches + 1)

/-- query.go lines 180-211: `All`. -/
def All (fetch : Fetch) (fuel : Nat) (q : query) : Option ((List Card × Option GoError) × Nat) :=
  allLoop fetch fuel (allURL q) [] 0

/-- The url.Values built by `PageS` (query.go lines 221-227): the persisted
parameters plus page and pageSize. -/
def pageSVals (q : query) (pageNum pageSize : Int) : query :=
  mapSet (mapSet (valsFrom q) (str "page") (itoa pageNum)) (str "pageSize") (itoa pageSize)

/-- The URL fetched by `PageS` (query.go line 229). -/
def pageSURL (q : query) (pageNum pageSize : Int) : Str :=
  queryURL ++ str "cards?" ++ encode (pageSVals q pageNum pageSize)

/-- query.go lines 217-243: `PageS`.  One fetch; the total count is the first
Total-Count header value parsed with Atoi when the header is present and
non-empty (a parse failure fails the whole call with nil records and count 0,
lines 237-239), and the number of records on the page otherwise. -/
def PageS (fetch : Fetch) (q : query) (pageNum pageSize : Int) :
    List Card × Int × Option GoError :=
  match fetch (pageSURL q pageNum pageSize) with
  | .error e => ([], 0, some e)
  | .ok (cards, hdr) =>
    match hdr.totalCount with
    | some (t0 :: _) =>
      match atoi t0 with
      | .ok n => (cards, n, none)
      | .error e => ([], 0, some e)
    | _ => (cards, (cards.length : Int), none)

/-- query.go lines 213-215: `Page` delegates to `PageS` with page size 100. -/
def Page (fetch : Fetch) (q : query) (pageNum : Int) : List Card × Int × Option GoError :=
  PageS fetch q pageNum 100

/-- The url.Values built by `Random` (query.go lines 247-253). -/
def randomVals (q : query) (count : Int) : query :=
  mapSet (mapSet (valsFrom q) (str "random") (str "true")) (str "pageSize") (itoa count)

/-- The URL fetched by `Random` (query.go line 255). -/
def randomURL (q : query) (count : Int) : Str :=
  queryURL ++ str "cards?" ++ encode (randomVals q count)

/-- query.go lines 246-258: `Random`.  One fetch, headers discarded. -/
def Random (fetch : Fetch) (q : query) (count : Int) : List Card × Option GoError :=
  match fetch (randomURL q count) with
  | .error e => ([], some e)
  | .ok (cards, _) => (cards, none)

/-! ## Reference semantics of the query map

A Go map value is a reference into the heap: `Where` and `OrderBy` mutate the
shared map and return the same reference, `Copy` allocates a fresh map.  The
heap is a list of maps and a reference is an index into it. -/

/-- The heap of live query maps. -/
abbrev Store := List query

/-- Dereference a query reference. -/
def storeGet (s : Store) (r : Nat) : query := s.getD r []

/-- Overwrite the map a reference points to. -/
def storeSet (s : Store) (r : Nat) (m : query) : Store := s.set r m

/-- query.go lines 126-129: `NewQuery` allocates a fresh empty map. -/
def NewQuery (s : Store) : Store × Nat := (s ++ [[]], s.length)

/-- query.go lines 270-273: `Where` writes through the receiver reference and
returns that same reference. -/
def Where (s : Store) (r : Nat) (column value : Str) : Store × Nat :=
  (storeSet s r (mapSet (storeGet s r) column value), r)

/-- query.go lines 275-278: `OrderBy` writes the reserved orderBy key through
the receiver reference and returns that same reference. -/
def OrderBy (s : Store) (r : Nat) (column : Str) : Store × Nat :=
  (storeSet s r (mapSet (storeGet s r) (str "orderBy") column), r)

/-- query.go lines 261-267: `Copy` allocates a fresh map and inserts every
pair of the receiver into it. -/
def Copy (s : Store) (r : Nat) : Store × Nat :=
  (s ++ [valsFrom (storeGet s r)], s.length)

/-- A mutating builder call, for stating frame properties over arbitrary
sequences of mutations. -/
inductive Op where
  | whereOp (column value : Str)
  | orderByOp (column : Str)

/-- Apply one builder call through a reference. -/
def applyOp (s : Store) (r : Nat) : Op → Store × Nat
  | .whereOp c v => Where s r c v
  | .orderByOp c => OrderBy s r c

/-- Apply a chain of builder calls, threading the returned reference exactly
as fluent Go code does. -/
def applyOps (s : Store) (r : Nat) : List Op → Store × Nat
  | [] => (s, r)
  | op :: ops =>
    let p := applyOp s r op
    applyOps p.1 p.2 ops

/-- `All` as invoked on a query reference.  The body of the Go method only
reads the receiver map (lines 183-186), so the heap comes back unchanged. -/
def allOnStore (fetch : Fetch) (fuel : Nat) (s : Store) (r : Nat) :
    Store × Option ((List Card × Option GoError) × Nat) :=
  (s, All fetch fuel (storeGet s r))

/-- `PageS` as invoked on a query reference; the receiver map is only read
(lines 222-224). -/
def pageSOnStore (fetch : Fetch) (s : Store) (r : Nat) (pageNum pageSize : Int) :
    Store × (List Card × Int × Option GoError) :=
  (s, PageS fetch (storeGet s r) pageNum pageSize)

/-- `Page` as invoked on a query reference. -/
def pageOnStore (fetch : Fetch) (s : Store) (r : Nat) (pageNum : Int) :
    Store × (List Card × Int × Option GoError) :=
  (s, Page fetch (storeGet s r) pageNum)

/-- `Random` as invoked on a query reference; the receiver map is only read
(lines 248-250). -/
def randomOnStore (fetch : Fetch) (s : Store) (r : Nat) (count : Int) :
    Store × (List Card × Option GoError) :=
  (s, Random fetch (storeGet s r) count)

/-- The persisted map is free of the three per-call control keys. -/
def noFetchKeys (m : query) : Prop :=
  lookupKey m (str "page") = none ∧ lookupKey m (str "pageSize") = none ∧
    lookupKey m (str "random") = none

instance (m : query) : Decidable (noFetchKeys m) := by
  unfold noFetchKeys; infer_instance

/-! ## Concrete servers and stores exercised by the closed instances below -/

/-- A first sample record. -/
def cardA : Card := ⟨1⟩

/-- A second sample record. -/
def cardB : Card := ⟨2⟩

/-- A header whose Link value points the drain at the URL u2. -/
def hdrNext2 : header := ⟨some [str "<u2>; rel=\"next\""], none⟩

/-- A header with no Link key at all. -/
def hdrLast : header := ⟨none, none⟩

/-- A two-page server: the initial drain URL yields one record and a link to
u2, and u2 yields one record and no link. -/
def chainFetch : Fetch := fun u =>
  if u = allURL [] then .ok ([cardA], hdrNext2)
  else if u = str "u2" then .ok ([cardB], hdrLast)
  else .error ⟨[]⟩

/-- The URLs of the two-page chain. -/
def chainUrls : Nat → Str := fun i => if i = 0 then allURL [] else str "u2"

/-- The records of the two-page chain. -/
def chainPages : Nat → List Card := fun i => if i = 0 then [cardA] else [cardB]

/-- The headers of the two-page chain. -/
def chainHdrs : Nat → header := fun i => if i = 0 then hdrNext2 else hdrLast

/-- A server that always answers with a further next link. -/
def loopFetch : Fetch := fun _ => .ok ([], hdrNext2)

/-- A sample transport error. -/
def errE : GoError := ⟨str "boom"⟩

/-- A server whose second page (the URL u2) fails. -/
def errFetch : Fetch := fun u =>
  if u = allURL [] then .ok ([cardA], hdrNext2)
  else .error errE

/-- A server answering two records and a numeric Total-Count header. -/
def fetch3 : Fetch := fun _ => .ok ([cardA, cardB], ⟨none, some [str "250"]⟩)

/-- A server answering two records and no Total-Count header. -/
def fetch3b : Fetch := fun _ => .ok ([cardA, cardB], ⟨none, none⟩)

/-- A server answering a record and a non-numeric Total-Count header. -/
def fetch4 : Fetch := fun _ => .ok ([cardA], ⟨none, some [str "abc"]⟩)

/-- A server that never answers successfully. -/
def nullFetch : Fetch := fun _ => .error ⟨[]⟩

/-- A Link header value carrying two next-relation entries. -/
def hdr9 : header := ⟨some [str "<a>; rel=\"next\", <b>; rel=\"next\""], none⟩

/-- A server answering with the double-next header. -/
def fetch9 : Fetch := fun _ => .ok ([cardA], hdr9)

/-- A header whose first Link value has no next relation but whose second
value does. -/
def hdr10 : header := ⟨some [str "<a>; rel=\"last\"", str "<b>; rel=\"next\""], none⟩

/-- A server answering with that header. -/
def fetch10 : Fetch := fun _ => .ok ([cardA], hdr10)

/-- A one-reference store holding one persisted filter. -/
def demoStore6 : Store := [[(str "rarity", str "Rare")]]

/-- A one-reference store for the copy-independence instance. -/
def demoStore7 : Store := [[(str "set", str "KLD")]]

/-- A sample chain of mutating builder calls. -/
def demoOps : List Op := [.whereOp (str "rarity") (str "Rare"), .orderByOp (str "name")]

/-- A decoded body with the single-record slot populated. -/
def respSingle : cardResponse := ⟨some cardA, [cardB]⟩

/-- A decoded body with only the list slot populated. -/
def respListOnly : cardResponse := ⟨none, [cardA, cardB]⟩

/-- A decoded body with an empty list slot. -/
def respEmpty : cardResponse := ⟨none, []⟩

/-! ## Lemmas about the drain loop -/

theorem allLoop_nil (fetch : Fetch) (fuel : Nat) (acc : List Card) (cnt : Nat) :
    allLoop fetch fuel [] acc cnt = some ((acc, none), cnt) := by
  unfold allLoop; simp

theorem allLoop_zero (fetch : Fetch) {u : Str} (acc : List Card) (cnt : Nat) (hu : u ≠ []) :
    allLoop fetch 0 u acc cnt = none := by
  unfold allLoop; rw [if_neg hu]

theorem allLoop_err (fetch : Fetch) {u : Str} {e : GoError} (f : Nat) (acc : List Card)
    (cnt : Nat) (hu : u ≠ []) (hf : fetch u = .error e) :
    allLoop fetch (f + 1) u acc cnt = some (([], some e), cnt + 1) := by
  unfold allLoop; rw [if_neg hu, hf]

theorem allLoop_ok (fetch : Fetch) {u : Str} {cards : List Card} {hdr : header} (f : Nat)
    (acc : List Card) (cnt : Nat) (hu : u ≠ []) (hf : fetch u = .ok (cards, hdr)) :
    allLoop fetch (f + 1) u acc cnt
      = allLoop fetch f (parseNextURL hdr) (acc ++ cards) (cnt + 1) := by
  conv_lhs => rw [allLoop]
  rw [if_neg hu, hf]

/-- Advancing the drain loop through `k` successfully linked pages. -/
theorem allLoop_steps (fetch : Fetch) :
    ∀ (k fuel : Nat) (urls : Nat → Str) (pages : Nat → List Card) (hdrs : Nat → header)
      (acc : List Card) (cnt : Nat),
      k ≤ fuel →
      (∀ i, i < k → urls i ≠ []) →
      (∀ i, i < k → fetch (urls i) = .ok (pages i, hdrs i)) →
      (∀ i, i < k → parseNextURL (hdrs i) = urls (i + 1)) →
      allLoop fetch fuel (urls 0) acc cnt
        = allLoop fetch (fuel - k) (urls k) (acc ++ ((List.range k).map pages).flatten)
            (cnt + k) := by
  intro k
  induction k with
  | zero => intro fuel urls pages hdrs acc cnt _ _ _ _; simp
  | succ k ih =>
    intro fuel urls pages hdrs acc cnt hfuel hne hok hnext
    match fuel, hfuel with
    | fuel + 1, hfuel =>
      rw [allLoop_ok fetch fuel acc cnt (hne 0 (Nat.succ_pos k)) (hok 0 (Nat.succ_pos k))]
      rw [hnext 0 (Nat.succ_pos k)]
      have hstep := ih fuel (fun i => urls (i + 1)) (fun i => pages (i + 1))
        (fun i => hdrs (i + 1)) (acc ++ pages 0) (cnt + 1)
        (Nat.le_of_succ_le_succ hfuel)
        (fun i hi => hne (i + 1) (Nat.succ_lt_succ hi))
        (fun i hi => hok (i + 1) (Nat.succ_lt_succ hi))
        (fun i hi => hnext (i + 1) (Nat.succ_lt_succ hi))
      rw [hstep]
      have h1 : fuel + 1 - (k + 1) = fuel - k := by omega
      have h2 : cnt + 1 + k = cnt + (k + 1) := by omega
      have h3 : (acc ++ pages 0) ++ ((List.range k).map fun i => pages (i + 1)).flatten
          = acc ++ ((List.range (k + 1)).map pages).flatten := by
        rw [List.range_succ_eq_map]
        simp only [List.map_cons, List.map_map, List.flatten_cons, List.append_assoc]
        rfl
      rw [h1, h2, h3]

/-- When the server always answers with a next link, the loop never returns:
however much fuel is supplied, it is exhausted. -/
theorem allLoop_divergent (fetch : Fetch)
    (halways : ∀ u, u ≠ [] → ∃ cs hdr, fetch u = .ok (cs, hdr) ∧ parseNextURL hdr ≠ []) :
    ∀ (fuel : Nat) (u : Str) (acc : List Card) (cnt : Nat), u ≠ [] →
      allLoop fetch fuel u acc cnt = none := by
  intro fuel
  induction fuel with
  | zero => intro u acc cnt hu; exact allLoop_zero fetch acc cnt hu
  | succ f ih =>
    intro u acc cnt hu
    obtain ⟨cs, hdr, hf, hn⟩ := halways u hu
    rw [allLoop_ok fetch f acc cnt hu hf]
    exact ih _ _ _ hn

theorem allURL_ne_nil (q : query) : allURL q ≠ [] := by
  intro h
  have hlen := congrArg List.length h
  simp only [allURL, List.length_append, List.length_nil] at hlen
  have hq : 0 < queryURL.length := by decide
  omega

/-- The value the inner header loop leaves in the next URL accumulator: the
last next-relation entry of the parts, or the initial accumulator when no part
carries one. -/
theorem linkFold_eq : ∀ (parts : List Str) (acc : Str),
    linkFold parts acc = (parts.filterMap nextOf).getLastD acc := by
  intro parts
  induction parts with
  | nil => intro acc; rfl
  | cons part rest ih =>
    intro acc
    rw [linkFold, List.filterMap_cons]
    cases hm : findStringSubmatch part with
    | none =>
      have hn : nextOf part = none := by simp [nextOf, hm]
      rw [hn]
      exact ih acc
    | some pr =>
      obtain ⟨u, rel⟩ := pr
      by_cases hrel : rel = str "next"
      · have hn : nextOf part = some u := by simp [nextOf, hm, hrel]
        rw [hn]
        show linkFold rest (if rel = str "next" then u else acc)
          = (u :: List.filterMap nextOf rest).getLastD acc
        rw [if_pos hrel, List.getLastD_cons]
        exact ih u
      · have hn : nextOf part = none := by simp [nextOf, hm, hrel]
        rw [hn]
        show linkFold rest (if rel = str "next" then u else acc)
          = (List.filterMap nextOf rest).getLastD acc
        rw [if_neg hrel]
        exact ih acc

/-! ## Lemmas about the map model -/

theorem lookupKey_mapSet_self (m : query) (k v : Str) :
    lookupKey (mapSet m k v) k = some v := by
  induction m with
  | nil => simp [mapSet, lookupKey]
  | cons kv rest ih =>
    obtain ⟨k2, v2⟩ := kv
    by_cases h : k2 = k
    · simp [mapSet, h, lookupKey]
    · simp [mapSet, h, lookupKey, ih]

theorem lookupKey_mapSet_ne (m : query) {k a : Str} (v : Str) (h : k ≠ a) :
    lookupKey (mapSet m k v) a = lookupKey m a := by
  induction m with
  | nil => simp [mapSet, lookupKey, h]
  | cons kv rest ih =>
    obtain ⟨k2, v2⟩ := kv
    by_cases h2 : k2 = k
    · subst h2; simp [mapSet, lookupKey, h]
    · simp [mapSet, h2, lookupKey, ih]

theorem countKey_eq_zero (m : query) {a : Str} (h : lookupKey m a = none) :
    countKey m a = 0 := by
  induction m with
  | nil => rfl
  | cons kv rest ih =>
    obtain ⟨k, v⟩ := kv
    by_cases hk : k = a
    · subst hk; simp [lookupKey] at h
    · simp only [lookupKey, if_neg hk] at h
      simp [countKey, hk, ih h]

theorem countKey_mapSet (m : query) {k : Str} (v : Str) (h : nodupKeys m = true) :
    countKey (mapSet m k v) k = 1 := by
  induction m with
  | nil => simp [mapSet, countKey]
  | cons kv rest ih =>
    obtain ⟨k2, v2⟩ := kv
    have h2 : (lookupKey rest k2).isNone = true ∧ nodupKeys rest = true := by
      simpa [nodupKeys, Bool.and_eq_true] using h
    by_cases hk : k2 = k
    · subst hk
      have hz : countKey rest k2 = 0 :=
        countKey_eq_zero rest (Option.isNone_iff_eq_none.mp h2.1)
      simp [mapSet, countKey, hz]
    · simp [mapSet, hk, countKey, ih h2.2]

theorem nodupKeys_mapSet (m : query) (k v : Str) (h : nodupKeys m = true) :
    nodupKeys (mapSet m k v) = true := by
  induction m with
  | nil => simp [mapSet, nodupKeys, lookupKey]
  | cons kv rest ih =>
    obtain ⟨k2, v2⟩ := kv
    have h2 : (lookupKey rest k2).isNone = true ∧ nodupKeys rest = true := by
      simpa [nodupKeys, Bool.and_eq_true] using h
    by_cases hk : k2 = k
    · subst hk
      simp [mapSet, nodupKeys, h2.1, h2.2]
    · have hne : lookupKey (mapSet rest k v) k2 = lookupKey rest k2 :=
        lookupKey_mapSet_ne rest v (fun he => hk he.symm)
      simp [mapSet, hk, nodupKeys, hne, h2.1, h2.2, ih h2.2]

theorem lookupKey_append_none {m1 : query} (m2 : query) {a : Str}
    (h : lookupKey m1 a = none) : lookupKey (m1 ++ m2) a = lookupKey m2 a := by
  induction m1 with
  | nil => rfl
  | cons kv rest ih =>
    obtain ⟨k, v⟩ := kv
    by_cases hk : k = a
    · subst hk; simp [lookupKey] at h
    · simp only [lookupKey, if_neg hk] at h
      simp [lookupKey, hk, ih h]

theorem mapSet_eq_append {m : query} {k : Str} (v : Str) (h : lookupKey m k = none) :
    mapSet m k v = m ++ [(k, v)] := by
  induction m with
  | nil => rfl
  | cons kv rest ih =>
    obtain ⟨k2, v2⟩ := kv
    by_cases hk : k2 = k
    · subst hk; simp [lookupKey] at h
    · simp only [lookupKey, if_neg hk] at h
      simp [mapSet, hk, ih h]

theorem valsFrom_aux : ∀ (m acc : query), nodupKeys m = true →
    (∀ a, lookupKey m a ≠ none → lookupKey acc a = none) →
    m.foldl (fun acc kv => mapSet acc kv.1 kv.2) acc = acc ++ m := by
  intro m
  induction m with
  | nil => intro acc _ _; simp
  | cons kv rest ih =>
    intro acc hnd hdisj
    obtain ⟨k, v⟩ := kv
    have h2 : (lookupKey rest k).isNone = true ∧ nodupKeys rest = true := by
      simpa [nodupKeys, Bool.and_eq_true] using hnd
    have hacck : lookupKey acc k = none := hdisj k (by simp [lookupKey])
    have hdisj2 : ∀ a, lookupKey rest a ≠ none → lookupKey (acc ++ [(k, v)]) a = none := by
      intro a ha
      have hak : k ≠ a := by
        intro he
        subst he
        exact ha (Option.isNone_iff_eq_none.mp h2.1)
      have hacc : lookupKey acc a = none := by
        apply hdisj a
        simp only [lookupKey, if_neg hak]
        exact ha
      rw [lookupKey_append_none [(k, v)] hacc]
      simp [lookupKey, hak]
    rw [List.foldl_cons]
    have hstep : mapSet acc k v = acc ++ [(k, v)] := mapSet_eq_append v hacck
    show List.foldl (fun acc kv => mapSet acc kv.1 kv.2) (mapSet acc k v) rest
      = acc ++ (k, v) :: rest
    rw [hstep, ih (acc ++ [(k, v)]) h2.2 hdisj2, List.append_assoc]
    rfl

theorem valsFrom_self (m : query) (h : nodupKeys m = true) : valsFrom m = m := by
  have := valsFrom_aux m [] h (fun a _ => rfl)
  simpa [valsFrom] using this

/-! ## Lemmas about the store model -/

theorem storeGet_storeSet_self : ∀ (s : Store) (r : Nat) (m : query), r < s.length →
    storeGet (storeSet s r m) r = m := by
  intro s
  induction s with
  | nil => intro r m h; simp at h
  | cons q rest ih =>
    intro r m h
    cases r with
    | zero => rfl
    | succ r => exact ih r m (Nat.lt_of_succ_lt_succ h)

theorem storeGet_storeSet_ne : ∀ (s : Store) (r j : Nat) (m : query), j ≠ r →
    storeGet (storeSet s r m) j = storeGet s j := by
  intro s
  induction s with
  | nil => intro r j m _; rfl
  | cons q rest ih =>
    intro r j m h
    cases r with
    | zero =>
      cases j with
      | zero => exact absurd rfl h
      | succ j => rfl
    | succ r =>
      cases j with
      | zero => rfl
      | succ j => exact ih r j m (fun he => h (by rw [he]))

theorem storeGet_append_self : ∀ (s : Store) (m : query), storeGet (s ++ [m]) s.length = m := by
  intro s
  induction s with
  | nil => intro m; rfl
  | cons q rest ih => intro m; exact ih m

theorem storeGet_append_lt : ∀ (s : Store) (m : query) (r : Nat), r < s.length →
    storeGet (s ++ [m]) r = storeGet s r := by
  intro s
  induction s with
  | nil => intro m r h; simp at h
  | cons q rest ih =>
    intro m r h
    cases r with
    | zero => rfl
    | succ r => exact ih m r (Nat.lt_of_succ_lt_succ h)

theorem applyOp_fst (s : Store) (r : Nat) (op : Op) :
    ∃ m, (applyOp s r op).1 = storeSet s r m ∧ (applyOp s r op).2 = r := by
  cases op with
  | whereOp c v => exact ⟨_, rfl, rfl⟩
  | orderByOp c => exact ⟨_, rfl, rfl⟩

/-- A chain of builder calls through one reference never changes the map any
other reference points to. -/
theorem applyOps_frame : ∀ (ops : List Op) (s : Store) (r j : Nat), j ≠ r →
    storeGet (applyOps s r ops).1 j = storeGet s j := by
  intro ops
  induction ops with
  | nil => intro s r j _; rfl
  | cons op ops ih =>
    intro s r j h
    obtain ⟨m, hm, hr⟩ := applyOp_fst s r op
    show storeGet (applyOps (applyOp s r op).1 (applyOp s r op).2 ops).1 j = storeGet s j
    rw [hm, hr, ih (storeSet s r m) r j h]
    exact storeGet_storeSet_ne s r j m h

/-! ## The claims -/

/-- C5: for every successfully decoded response body, a populated
single-record slot makes the decoder return exactly that one record as a
one-element list, whatever the list slot holds; otherwise the decoder returns
the list slot unchanged (possibly empty, always an actual list). -/
theorem c5_decode_normalization (resp : cardResponse) :
    (∀ c, resp.card = some c → decodeCards (.ok resp) = .ok [c]) ∧
    (resp.card = none → decodeCards (.ok resp) = .ok resp.cards) := by
  constructor
  · intro c hc; simp [decodeCards, hc]
  · intro hc; simp [decodeCards, hc]

theorem c5_decode_normalization_witness :
    decodeCards (.ok respSingle) = .ok [cardA] ∧
    decodeCards (.ok respListOnly) = .ok [cardA, cardB] ∧
    decodeCards (.ok respEmpty) = .ok [] :=
  ⟨(c5_decode_normalization respSingle).1 cardA rfl,
   (c5_decode_normalization respListOnly).2 rfl,
   (c5_decode_normalization respEmpty).2 rfl⟩

/-- C6: two successive Where calls on the same attribute through the same
query reference leave exactly one entry for that attribute, holding the second
value, and both calls return the original reference, so the chained value and
the receiver are the same query. -/
theorem c6_where_last_write_wins (s : Store) (r : Nat) (a v1 v2 : Str)
    (hr : r < s.length) (hnd : nodupKeys (storeGet s r) = true) :
    (Where s r a v1).2 = r ∧
    (Where (Where s r a v1).1 r a v2).2 = r ∧
    countKey (storeGet (Where (Where s r a v1).1 r a v2).1 r) a = 1 ∧
    lookupKey (storeGet (Where (Where s r a v1).1 r a v2).1 r) a = some v2 := by
  have hg1 : storeGet (Where s r a v1).1 r = mapSet (storeGet s r) a v1 :=
    storeGet_storeSet_self s r _ hr
  have hr1 : r < (Where s r a v1).1.length := by
    show r < (s.set r _).length
    rw [List.length_set]
    exact hr
  have hg2 : storeGet (Where (Where s r a v1).1 r a v2).1 r
      = mapSet (storeGet (Where s r a v1).1 r) a v2 :=
    storeGet_storeSet_self _ r _ hr1
  have hnd1 : nodupKeys (mapSet (storeGet s r) a v1) = true := nodupKeys_mapSet _ a v1 hnd
  refine ⟨rfl, rfl, ?_, ?_⟩
  · rw [hg2, hg1]
    exact countKey_mapSet _ v2 hnd1
  · rw [hg2, hg1]
    exact lookupKey_mapSet_self _ a v2

theorem c6_where_last_write_wins_witness :
    (Where demoStore6 0 (str "set") (str "A")).2 = 0 ∧
    (Where (Where demoStore6 0 (str "set") (str "A")).1 0 (str "set") (str "B")).2 = 0 ∧
    countKey
      (storeGet (Where (Where demoStore6 0 (str "set") (str "A")).1 0 (str "set") (str "B")).1 0)
      (str "set") = 1 ∧
    lookupKey
      (storeGet (Where (Where demoStore6 0 (str "set") (str "A")).1 0 (str "set") (str "B")).1 0)
      (str "set") = some (str "B") :=
  c6_where_last_write_wins demoStore6 0 (str "set") (str "A") (str "B") (by decide) (by decide)

/-- C7: Copy returns a fresh reference whose map equals the original at the
moment of the call, and any chain of Where/OrderBy mutations applied through
either reference leaves the map seen through the other reference unchanged, in
both directions. -/
theorem c7_copy_independent (s : Store) (r : Nat) (hr : r < s.length)
    (hnd : nodupKeys (storeGet s r) = true) :
    storeGet (Copy s r).1 (Copy s r).2 = storeGet s r ∧
    (Copy s r).2 ≠ r ∧
    (∀ ops : List Op, storeGet (applyOps (Copy s r).1 (Copy s r).2 ops).1 r = storeGet s r) ∧
    (∀ ops : List Op, storeGet (applyOps (Copy s r).1 r ops).1 (Copy s r).2 = storeGet s r) := by
  have hcopy : storeGet (Copy s r).1 (Copy s r).2 = storeGet s r := by
    show storeGet (s ++ [valsFrom (storeGet s r)]) s.length = storeGet s r
    rw [storeGet_append_self s _]
    exact valsFrom_self _ hnd
  have hne : (Copy s r).2 ≠ r := by
    show s.length ≠ r
    omega
  refine ⟨hcopy, hne, ?_, ?_⟩
  · intro ops
    rw [applyOps_frame ops (Copy s r).1 (Copy s r).2 r (fun he => hne he.symm)]
    show storeGet (s ++ [valsFrom (storeGet s r)]) r = storeGet s r
    exact storeGet_append_lt s _ r hr
  · intro ops
    rw [applyOps_frame ops (Copy s r).1 r (Copy s r).2 hne]
    exact hcopy

theorem c7_copy_independent_witness :
    storeGet (Copy demoStore7 0).1 (Copy demoStore7 0).2 = storeGet demoStore7 0 ∧
    (Copy demoStore7 0).2 ≠ 0 ∧
    storeGet (applyOps (Copy demoStore7 0).1 (Copy demoStore7 0).2 demoOps).1 0
      = storeGet demoStore7 0 ∧
    storeGet (applyOps (Copy demoStore7 0).1 0 demoOps).1 (Copy demoStore7 0).2
      = storeGet demoStore7 0 :=
  have h := c7_copy_independent demoStore7 0 (by decide) (by decide)
  ⟨h.1, h.2.1, h.2.2.1 demoOps, h.2.2.2 demoOps⟩

/-- C8: the terminal fetch operations leave the persisted query untouched: the
heap comes back unchanged from All, Page, PageS and Random (so a map free of
the page, pageSize and random keys stays free of them), while those keys are
set in the per-call values copy that builds the request URL. -/
theorem c8_terminal_ops_preserve_query (fetch : Fetch) (fuel : Nat) (s : Store) (r : Nat)
    (pageNum pageSize count : Int) (h : noFetchKeys (storeGet s r)) :
    (allOnStore fetch fuel s r).1 = s ∧
    (pageSOnStore fetch s r pageNum pageSize).1 = s ∧
    (pageOnStore fetch s r pageNum).1 = s ∧
    (randomOnStore fetch s r count).1 = s ∧
    noFetchKeys (storeGet (allOnStore fetch fuel s r).1 r) ∧
    noFetchKeys (storeGet (pageSOnStore fetch s r pageNum pageSize).1 r) ∧
    noFetchKeys (storeGet (pageOnStore fetch s r pageNum).1 r) ∧
    noFetchKeys (storeGet (randomOnStore fetch s r count).1 r) ∧
    lookupKey (pageSVals (storeGet s r) pageNum pageSize) (str "page") = some (itoa pageNum) ∧
    lookupKey (pageSVals (storeGet s r) pageNum pageSize) (str "pageSize")
      = some (itoa pageSize) ∧
    lookupKey (randomVals (storeGet s r) count) (str "random") = some (str "true") ∧
    lookupKey (randomVals (storeGet s r) count) (str "pageSize") = some (itoa count) := by
  refine ⟨rfl, rfl, rfl, rfl, h, h, h, h, ?_, ?_, ?_, ?_⟩
  · unfold pageSVals
    rw [lookupKey_mapSet_ne _ (itoa pageSize) (by decide)]
    exact lookupKey_mapSet_self _ _ _
  · unfold pageSVals
    exact lookupKey_mapSet_self _ _ _
  · unfold randomVals
    rw [lookupKey_mapSet_ne _ (itoa count) (by decide)]
    exact lookupKey_mapSet_self _ _ _
  · unfold randomVals
    exact lookupKey_mapSet_self _ _ _

theorem c8_terminal_ops_preserve_query_witness :
    (allOnStore nullFetch 3 [[]] 0).1 = [[]] ∧
    (pageSOnStore nullFetch [[]] 0 2 50).1 = [[]] ∧
    (pageOnStore nullFetch [[]] 0 2).1 = [[]] ∧
    (randomOnStore nullFetch [[]] 0 10).1 = [[]] ∧
    noFetchKeys (storeGet (allOnStore nullFetch 3 [[]] 0).1 0) ∧
    noFetchKeys (storeGet (pageSOnStore nullFetch [[]] 0 2 50).1 0) ∧
    noFetchKeys (storeGet (pageOnStore nullFetch [[]] 0 2).1 0) ∧
    noFetchKeys (storeGet (randomOnStore nullFetch [[]] 0 10).1 0) ∧
    lookupKey (pageSVals (storeGet [[]] 0) 2 50) (str "page") = some (itoa 2) ∧
    lookupKey (pageSVals (storeGet [[]] 0) 2 50) (str "pageSize") = some (itoa 50) ∧
    lookupKey (randomVals (storeGet [[]] 0) 10) (str "random") = some (str "true") ∧
    lookupKey (randomVals (storeGet [[]] 0) 10) (str "pageSize") = some (itoa 10) :=
  c8_terminal_ops_preserve_query nullFetch 3 [[]] 0 2 50 10 (by decide)

/-- C1: when the server serves a chain of N pages, each linked to the next by
a rel next entry, followed by a final page without one, All returns the
concatenation of all N+1 record lists in page order after exactly N+1 fetches;
and the absence of a next relation is the sole termination condition: a server
that always supplies a next link makes the loop run forever (no fuel
suffices). -/
theorem c1_all_drains (q : query) :
    (∀ (fetch : Fetch) (N fuel : Nat) (urls : Nat → Str) (pages : Nat → List Card)
       (hdrs : Nat → header),
       N + 1 ≤ fuel →
       urls 0 = allURL q →
       (∀ i, i ≤ N → fetch (urls i) = .ok (pages i, hdrs i)) →
       (∀ i, i < N → parseNextURL (hdrs i) = urls (i + 1)) →
       (∀ i, i < N → urls (i + 1) ≠ []) →
       parseNextURL (hdrs N) = [] →
       All fetch fuel q = some ((((List.range (N + 1)).map pages).flatten, none), N + 1)) ∧
    (∀ (fetch : Fetch) (fuel : Nat),
       (∀ u, u ≠ [] → ∃ cs hdr, fetch u = .ok (cs, hdr) ∧ parseNextURL hdr ≠ []) →
       All fetch fuel q = none) := by
  constructor
  · intro fetch N fuel urls pages hdrs hfuel h0 hok hnext hne hlast
    unfold All
    rw [← h0]
    have hne2 : ∀ i, i < N → urls i ≠ [] := by
      intro i hi
      cases i with
      | zero => rw [h0]; exact allURL_ne_nil q
      | succ j => exact hne j (Nat.lt_of_succ_lt hi)
    rw [allLoop_steps fetch N fuel urls pages hdrs [] 0 (by omega) hne2
      (fun i hi => hok i (Nat.le_of_lt hi)) hnext]
    have hfN : fuel - N = (fuel - N - 1) + 1 := by omega
    rw [hfN]
    have huN : urls N ≠ [] := by
      cases N with
      | zero => rw [h0]; exact allURL_ne_nil q
      | succ j => exact hne j (Nat.lt_succ_self j)
    rw [allLoop_ok fetch (fuel - N - 1) ([] ++ ((List.range N).map pages).flatten) (0 + N)
      huN (hok N (Nat.le_refl N))]
    rw [hlast, allLoop_nil]
    have hl : ([] : List Card) ++ ((List.range N).map pages).flatten ++ pages N
        = ((List.range (N + 1)).map pages).flatten := by
      simp [List.range_succ]
    have hc : 0 + N + 1 = N + 1 := by omega
    rw [hl, hc]
  · intro fetch fuel hal
    unfold All
    exact allLoop_divergent fetch hal fuel _ [] 0 (allURL_ne_nil q)

theorem c1_all_drains_witness :
    All chainFetch 5 [] = some (([cardA, cardB], none), 2) ∧
    All loopFetch 7 [] = none := by
  refine ⟨(c1_all_drains []).1 chainFetch 1 5 chainUrls chainPages chainHdrs (by omega) rfl
      ?_ ?_ ?_ (by decide),
    (c1_all_drains []).2 loopFetch 7 (fun u hu => ⟨[], hdrNext2, rfl, by decide⟩)⟩
  · intro i hi
    interval_cases i
    · decide
    · decide
  · intro i hi
    interval_cases i
    decide
  · intro i hi
    interval_cases i
    decide

/-- C2: when any fetch of a drain fails, All aborts at that point and returns
the error with an empty record list; the records aggregated from the earlier
successful pages are discarded. -/
theorem c2_all_error_aborts (fetch : Fetch) (q : query) (k fuel : Nat) (urls : Nat → Str)
    (pages : Nat → List Card) (hdrs : Nat → header) (e : GoError)
    (hfuel : k < fuel)
    (h0 : urls 0 = allURL q)
    (hok : ∀ i, i < k → fetch (urls i) = .ok (pages i, hdrs i))
    (hnext : ∀ i, i < k → parseNextURL (hdrs i) = urls (i + 1))
    (hne : ∀ i, i < k → urls (i + 1) ≠ [])
    (herr : fetch (urls k) = .error e) :
    All fetch fuel q = some (([], some e), k + 1) := by
  unfold All
  rw [← h0]
  have hne2 : ∀ i, i < k → urls i ≠ [] := by
    intro i hi
    cases i with
    | zero => rw [h0]; exact allURL_ne_nil q
    | succ j => exact hne j (Nat.lt_of_succ_lt hi)
  rw [allLoop_steps fetch k fuel urls pages hdrs [] 0 (by omega) hne2 hok hnext]
  have hfk : fuel - k = (fuel - k - 1) + 1 := by omega
  rw [hfk]
  have huk : urls k ≠ [] := by
    cases k with
    | zero => rw [h0]; exact allURL_ne_nil q
    | succ j => exact hne j (Nat.lt_succ_self j)
  rw [allLoop_err fetch (fuel - k - 1) ([] ++ ((List.range k).map pages).flatten) (0 + k)
    huk herr]
  have hc : 0 + k + 1 = k + 1 := by omega
  rw [hc]

theorem c2_all_error_aborts_witness :
    All errFetch 3 [] = some (([], some errE), 2) := by
  refine c2_all_error_aborts errFetch [] 1 3 chainUrls chainPages chainHdrs errE (by omega) rfl
    ?_ ?_ ?_ (by decide)
  · intro i hi
    interval_cases i
    decide
  · intro i hi
    interval_cases i
    decide
  · intro i hi
    interval_cases i
    decide

/-- C3: PageS sets page and pageSize in the outgoing request parameters, its
result depends on the transport only through the single constructed URL, and
its total count is the parsed Total-Count header value when present and
parseable, or the number of records on the page when the header is absent. -/
theorem c3_pageS_count (fetch : Fetch) (q : query) (pageNum pageSize : Int) :
    lookupKey (pageSVals q pageNum pageSize) (str "page") = some (itoa pageNum) ∧
    lookupKey (pageSVals q pageNum pageSize) (str "pageSize") = some (itoa pageSize) ∧
    (∀ g : Fetch, g (pageSURL q pageNum pageSize) = fetch (pageSURL q pageNum pageSize) →
      PageS g q pageNum pageSize = PageS fetch q pageNum pageSize) ∧
    (∀ cards hdr, fetch (pageSURL q pageNum pageSize) = .ok (cards, hdr) →
      (∀ t0 ts n, hdr.totalCount = some (t0 :: ts) → atoi t0 = .ok n →
        PageS fetch q pageNum pageSize = (cards, n, none)) ∧
      (hdr.totalCount = none →
        PageS fetch q pageNum pageSize = (cards, (cards.length : Int), none))) := by
  refine ⟨?_, ?_, ?_, ?_⟩
  · unfold pageSVals
    rw [lookupKey_mapSet_ne _ (itoa pageSize) (by decide)]
    exact lookupKey_mapSet_self _ _ _
  · unfold pageSVals
    exact lookupKey_mapSet_self _ _ _
  · intro g hg
    unfold PageS
    rw [hg]
  · intro cards hdr hf
    constructor
    · intro t0 ts n ht ha
      simp [PageS, hf, ht, ha]
    · intro ht
      simp [PageS, hf, ht]

theorem c3_pageS_count_witness :
    lookupKey (pageSVals [] 2 50) (str "page") = some (str "2") ∧
    lookupKey (pageSVals [] 2 50) (str "pageSize") = some (str "50") ∧
    PageS nullFetch [] 2 50 = PageS nullFetch [] 2 50 ∧
    PageS fetch3 [] 2 50 = ([cardA, cardB], 250, none) ∧
    PageS fetch3b [] 2 50 = ([cardA, cardB], 2, none) :=
  have h := c3_pageS_count fetch3 [] 2 50
  have h2 := c3_pageS_count fetch3b [] 2 50
  ⟨h.1, h.2.1, (c3_pageS_count nullFetch [] 2 50).2.2.1 nullFetch rfl,
   (h.2.2.2 [cardA, cardB] ⟨none, some [str "250"]⟩ rfl).1 (str "250") [] 250 rfl (by decide),
   (h2.2.2.2 [cardA, cardB] ⟨none, none⟩ rfl).2 rfl⟩

/-- C4: a present Total-Count header whose first value does not parse as an
integer fails the whole PageS call: no records, count zero, and the parse
error, even though the page body was fetched and decoded. -/
theorem c4_pageS_bad_total_count (fetch : Fetch) (q : query) (pageNum pageSize : Int)
    (cards : List Card) (hdr : header) (t0 : Str) (ts : List Str) (e : GoError)
    (hf : fetch (pageSURL q pageNum pageSize) = .ok (cards, hdr))
    (ht : hdr.totalCount = some (t0 :: ts))
    (ha : atoi t0 = .error e) :
    PageS fetch q pageNum pageSize = ([], 0, some e) := by
  simp [PageS, hf, ht, ha]

theorem c4_pageS_bad_total_count_witness :
    PageS fetch4 [] 2 50 = ([], 0, some atoiErrSyntax) :=
  c4_pageS_bad_total_count fetch4 [] 2 50 [cardA] ⟨none, some [str "abc"]⟩ (str "abc") []
    atoiErrSyntax rfl rfl (by decide)

/-- C9: in a drain iteration whose first Link header value carries several
rel next entries, the URL the loop continues with is the one of the last such
entry in parse order: the accumulator starts empty each iteration and every
matching entry overwrites it. -/
theorem c9_last_next_wins (fetch : Fetch) (f : Nat) (u : Str) (acc : List Card) (cnt : Nat)
    (cards : List Card) (hdr : header) (v0 : Str) (rest : List Str)
    (hu : u ≠ []) (hf : fetch u = .ok (cards, hdr)) (hl : hdr.link = some (v0 :: rest))
    (_hn : (splitComma v0).filterMap nextOf ≠ []) :
    allLoop fetch (f + 1) u acc cnt
      = allLoop fetch f (((splitComma v0).filterMap nextOf).getLastD []) (acc ++ cards)
          (cnt + 1) := by
  have hp : parseNextURL hdr = ((splitComma v0).filterMap nextOf).getLastD [] := by
    unfold parseNextURL
    rw [hl]
    exact linkFold_eq (splitComma v0) []
  rw [allLoop_ok fetch f acc cnt hu hf, hp]

theorem c9_last_next_wins_witness :
    allLoop fetch9 1 (str "u") [] 0 = allLoop fetch9 0 (str "b") [cardA] 1 :=
  c9_last_next_wins fetch9 0 (str "u") [] 0 [cardA] hdr9
    (str "<a>; rel=\"next\", <b>; rel=\"next\"") [] (by decide) rfl rfl (by decide)

/-- C10: the drain inspects only the first value of the Link header: the next
URL is computed from that value alone, so a rel next entry carried in a second
or later value is ignored and such a response ends the drain as if no next
link were present. -/
theorem c10_only_first_link_value (hdr : header) (v0 : Str) (rest : List Str)
    (hl : hdr.link = some (v0 :: rest)) :
    parseNextURL hdr = linkFold (splitComma v0) [] ∧
    (linkFold (splitComma v0) [] = [] →
      ∀ (fetch : Fetch) (f : Nat) (u : Str) (acc : List Card) (cnt : Nat) (cards : List Card),
        u ≠ [] → fetch u = .ok (cards, hdr) →
        allLoop fetch (f + 1) u acc cnt = some ((acc ++ cards, none), cnt + 1)) := by
  have hp : parseNextURL hdr = linkFold (splitComma v0) [] := by
    unfold parseNextURL
    rw [hl]
    rfl
  refine ⟨hp, ?_⟩
  intro hz fetch f u acc cnt cards hu hf
  rw [allLoop_ok fetch f acc cnt hu hf, hp, hz, allLoop_nil]

theorem c10_only_first_link_value_witness :
    parseNextURL hdr10 = [] ∧
    allLoop fetch10 4 (str "u") [] 0 = some (([cardA], none), 1) := by
  have h := c10_only_first_link_value hdr10 (str "<a>; rel=\"last\"")
    [str "<b>; rel=\"next\""] rfl
  refine ⟨?_, h.2 (by decide) fetch10 3 (str "u") [] 0 [cardA] (by decide) rfl⟩
  rw [h.1]
  decide

end Mtg
